import Mathlib

/-!
# Verification of the hospital price-transparency normalization pipeline

A shallow embedding, in Lean 4, of the core of the `out-of-pocket-data`
repository: the numeric-cleaning routine (`streaming_utils.safe_decimal`),
the standardized-code filter (`streaming_utils.is_standardized_code_type`),
the CSV row stream (`streaming_utils.stream_csv_rows`), the CSV and JSON
record extractors (`csv_processor._parse_csv_row_with_mapping`,
`json_processor._parse_json_item`), record validation
(`models.MedicalOperation`), deduplication
(`csv_processor._deduplicate_operations`, `_select_best_operation`),
per-file orchestration (`csv_processor.process_csv_file`,
`json_processor.process_json_file`) and format detection
(`format_detector.detect_file_format`, `detect_json_type`).

Python strings are modelled as Lean `String`s; Python `Decimal` and `float`
values as `ℚ` (the pipeline's prices are small exact decimals, so neither
binary rounding nor Decimal's non-finite literals `NaN`/`Infinity` are in
scope of the model); Python dicts as insertion-ordered association lists;
`None`/exceptions as `Option`.  Per-character string operations
(`.upper()`, `.lower()`, `.strip()`) are modelled on the underlying
character list, which coincides with Python on ASCII data.
-/

set_option maxRecDepth 40000

/-! ## Modelling Python string primitives -/

/-- Model of Python `str.upper()` (per-character uppercasing; coincides on
ASCII data, which is all the pipeline compares against). -/
def pyUpper (s : String) : String :=
  String.mk (s.data.map Char.toUpper)

/-- Model of Python `str.lower()`. -/
def pyLower (s : String) : String :=
  String.mk (s.data.map Char.toLower)

/-- Model of Python `str.strip()`: drop leading and trailing whitespace. -/
def pyStrip (s : String) : String :=
  String.mk (((s.data.dropWhile Char.isWhitespace).reverse.dropWhile
    Char.isWhitespace).reverse)

/-- Model of Python `str.replace(pattern, "")` for a single-character
pattern: remove every occurrence of the character. -/
def pyRemoveChar (s : String) (c : Char) : String :=
  String.mk (s.data.filter (fun d => d ≠ c))

/-! ## Modelling Python numeric parsing

`Decimal(str)` on a finite plain decimal literal: optional sign, digits
with at most one decimal point (at least one digit), optional exponent. -/

/-- Numeric value of a digit string (caller checks the characters). -/
def digitsToNat (cs : List Char) : Nat :=
  cs.foldl (fun a c => 10 * a + (c.toNat - 48)) 0

/-- All characters are decimal digits. -/
def allDigits (cs : List Char) : Bool :=
  cs.all Char.isDigit

/-- Parse the unsigned mantissa of a decimal literal: returns the digits
value together with the number of fractional digits. -/
def parseMantissa (cs : List Char) : Option (Nat × Nat) :=
  let intPart := cs.takeWhile (fun c => c ≠ '.')
  match cs.dropWhile (fun c => c ≠ '.') with
  | [] =>
    if intPart ≠ [] ∧ allDigits intPart then
      some (digitsToNat intPart, 0)
    else none
  | _ :: frac =>
    if frac.contains '.' then none
    else if (intPart ≠ [] ∨ frac ≠ []) ∧ allDigits intPart ∧ allDigits frac then
      some (digitsToNat (intPart ++ frac), frac.length)
    else none

/-- Parse an (optionally signed) nonempty digit string as an integer. -/
def parseSignedDigits (cs : List Char) : Option Int :=
  match cs with
  | '+' :: rest =>
    if rest ≠ [] ∧ allDigits rest then some (digitsToNat rest : Int) else none
  | '-' :: rest =>
    if rest ≠ [] ∧ allDigits rest then some (-(digitsToNat rest : Int)) else none
  | _ =>
    if cs ≠ [] ∧ allDigits cs then some (digitsToNat cs : Int) else none

/-- Model of exact decimal parsing (`decimal.Decimal(s)` on a finite plain
literal, also the grammar `float(s)` accepts on such literals): optional
sign, mantissa digits with at most one point, optional `e`/`E` exponent. -/
def parseDecimal (s : String) : Option ℚ :=
  let cs := s.data
  let (sign, body) : ℚ × List Char :=
    match cs with
    | '+' :: rest => (1, rest)
    | '-' :: rest => (-1, rest)
    | _ => (1, cs)
  let mant := body.takeWhile (fun c => c ≠ 'e' ∧ c ≠ 'E')
  match parseMantissa mant, body.dropWhile (fun c => c ≠ 'e' ∧ c ≠ 'E') with
  | some (m, fd), [] => some (sign * m / 10 ^ fd)
  | some (m, fd), _ :: expPart =>
    match parseSignedDigits expPart with
    | some e => some (sign * m * (10 : ℚ) ^ e / 10 ^ fd)
    | none => none
  | none, _ => none

/-! ## `streaming_utils.safe_decimal` -/

/-- Embedding of `streaming_utils.safe_decimal` on `Optional[str]` input
(the type every CSV-path call passes): `None`/empty → absent; strip `$`,
`,` and surrounding whitespace; blank or a sentinel token → absent; parse
as an exact decimal; non-parseable or non-positive → absent. -/
def safe_decimal (value : Option String) : Option ℚ :=
  match value with
  | none => none
  | some s =>
    if s = "" then none
    else
      let cleaned := pyStrip (pyRemoveChar (pyRemoveChar s '$') ',')
      if cleaned = "" ∨ pyUpper cleaned ∈ [("N/A"), ("NULL"), ("NONE"), ("-")] then
        none
      else
        match parseDecimal cleaned with
        | none => none
        | some q => if 0 < q then some q else none

/-! ## `streaming_utils.is_standardized_code_type` -/

/-- The standardized code-type tags of `is_standardized_code_type`. -/
def standardized_types : List String :=
  [("CPT"), ("HCPCS"), ("ICD-10"), ("ICD-10-CM"), ("ICD-10-PCS"), ("RC")]

/-- Embedding of `streaming_utils.is_standardized_code_type`:
case-insensitive membership in the standardized tag set. -/
def is_standardized_code_type (code_type : String) : Bool :=
  pyUpper code_type ∈ standardized_types

example : safe_decimal (some ("$1,234.50")) = some (2469/2) := by
  with_unfolding_all decide
example : safe_decimal (some (" n/a ")) = none := by decide
example : safe_decimal (some ("0")) = none := by with_unfolding_all decide
example : safe_decimal (some ("-12.5")) = none := by with_unfolding_all decide
example : safe_decimal (some ("abc")) = none := by decide
example : safe_decimal (some ("1e3")) = some 1000 := by with_unfolding_all decide
example : safe_decimal (some ("2.5E-1")) = some (1/4) := by
  with_unfolding_all decide
example : is_standardized_code_type ("cpt") = true := by decide
example : is_standardized_code_type ("CDM") = false := by decide

/-! ## Python dicts as insertion-ordered association lists -/

/-- Python `dict.get(k, default)`: the first (and, for a genuine dict,
only) binding of `k`, or the default. -/
def pyDictGetD (d : List (String × String)) (k dflt : String) : String :=
  (d.lookup k).getD dflt

/-- Python `dict.get(k)`: `None` when the key is absent. -/
def pyDictGet? (d : List (String × String)) (k : String) : Option String :=
  d.lookup k

/-- The codes dict of the extractors (`Dict[str, List[str]]`):
`if k not in codes: codes[k] = []` followed by `codes[k].append(v)`. -/
def dictAppend : List (String × List String) → String → String →
    List (String × List String)
  | [], k, v => [(k, [v])]
  | (k', vs) :: rest, k, v =>
    if k' = k then (k', vs ++ [v]) :: rest
    else (k', vs) :: dictAppend rest k v

/-! ## `models.MedicalOperation` (pydantic validation) -/

/-- The canonical normalized record (`MedicalOperation` /
"PricedProcedure").  `ingested_at` (a wall-clock timestamp) is outside the
model; prices are `ℚ` with `none` for `None`. -/
structure Op where
  facility_id : String
  codes : List (String × List String)
  description : String
  cash_price : Option ℚ
  gross_charge : Option ℚ
  negotiated_min : Option ℚ
  negotiated_max : Option ℚ
  currency : String
deriving DecidableEq, Repr

/-- Python `str.isupper()` on ASCII data: some cased character, and no
lowercase one. -/
def pyIsUpperStr (s : String) : Bool :=
  s.data.any Char.isAlpha && s.data.all (fun c => ¬ c.isLower)

/-- pydantic v1 validates fields in declaration order; when the validator
for a field runs, `values` holds exactly the previously validated fields.
Field names already in `values` when `negotiated_min` is validated. -/
def valuesBeforeNegotiatedMin : List String :=
  [("facility_id"), ("codes"), ("description"), ("cash_price"), ("gross_charge")]

/-- Field names already in `values` when `negotiated_max` is validated
(the field being validated is itself never in `values`). -/
def valuesBeforeNegotiatedMax : List String :=
  valuesBeforeNegotiatedMin ++ [("negotiated_min")]

/-- Embedding of `MedicalOperation.validate_negotiated_prices` as run for
one field: the guard requires BOTH `negotiated_min` and `negotiated_max`
to be keys of `values`; only if it holds is `values['negotiated_min'] >
values['negotiated_max']` evaluated (a comparison that raises on `None`,
modelled as failure). -/
def validate_negotiated_prices (values : List String)
    (vmin vmax : Option ℚ) : Bool :=
  if ("negotiated_min") ∈ values ∧ ("negotiated_max") ∈ values then
    match vmin, vmax with
    | some a, some b => decide (a ≤ b)
    | _, _ => false
  else true

/-- Embedding of `MedicalOperation(**price_record)`: the `ge=0` field
constraints on the four prices, the two runs of
`validate_negotiated_prices`, and the currency validator.  The `codes`
structural validator is satisfied by typing.  `none` on validation
failure. -/
def mkMedicalOperation (facility_id : String)
    (codes : List (String × List String)) (description : String)
    (cash_price gross_charge negotiated_min negotiated_max : Option ℚ)
    (currency : String) : Option Op :=
  let geOk : Option ℚ → Bool := fun o =>
    match o with
    | none => true
    | some q => decide (0 ≤ q)
  if geOk cash_price ∧ geOk gross_charge ∧ geOk negotiated_min ∧
      validate_negotiated_prices valuesBeforeNegotiatedMin
        negotiated_min negotiated_max ∧
      geOk negotiated_max ∧
      validate_negotiated_prices valuesBeforeNegotiatedMax
        negotiated_min negotiated_max ∧
      currency.length = 3 ∧ pyIsUpperStr currency then
    some ⟨facility_id, codes, description, cash_price, gross_charge,
      negotiated_min, negotiated_max, currency⟩
  else none

/-! ## `column_mapper.ColumnMapping` (value object; the heuristic mapper
that builds it from headers is not claim-relevant, so mappings are
universally quantified) -/

/-- One discovered code-column group (`{'code': ..., 'type': ...}`);
`none` models both an absent key and `None`. -/
structure CodeGroup where
  code : Option String
  type : Option String
deriving DecidableEq, Repr

/-- The resolved column names for the canonical fields. -/
structure ColumnMapping where
  description : Option String := none
  cash_price : Option String := none
  gross_charge : Option String := none
  min_negotiated : Option String := none
  max_negotiated : Option String := none
  setting : Option String := none
  code_columns : List CodeGroup := []
deriving Repr

/-! ## Python tuple ordering and `sorted`, for the dedup group key

`sorted(codes.items())` sorts `(str, list[str])` tuples lexicographically:
by the type string first (code-point order, as Lean's `String` order), on
ties by the code list (list lexicographic order).  Any stable sort is
determined by being a sorted permutation, so `List.insertionSort` renders
Python's Timsort faithfully. -/

/-- Python `<=` on `list[str]` (lexicographic). -/
def listLeB : List String → List String → Bool
  | [], _ => true
  | _ :: _, [] => false
  | x :: xs, y :: ys =>
    if x < y then true else if y < x then false else listLeB xs ys

/-- Python `<=` on `(str, list[str])` tuples (lexicographic). -/
def pairLeB (a b : String × List String) : Bool :=
  if a.1 < b.1 then true else if b.1 < a.1 then false else listLeB a.2 b.2

/-- `pairLeB` as a relation, for `List.insertionSort`. -/
def pairLe (a b : String × List String) : Prop :=
  pairLeB a b = true

instance : DecidableRel pairLe :=
  fun a b => inferInstanceAs (Decidable (pairLeB a b = true))

/-- `sorted(codes.items())`. -/
def sortItems (items : List (String × List String)) :
    List (String × List String) :=
  List.insertionSort pairLe items

/-! Python `str()` of the sorted items list, e.g.
`[('HCPCS', ['70551'])]`.  `repr` of a string is modelled for strings
without quote characters (all data the pipeline builds keys from). -/

/-- Python `repr` of a plain string. -/
def pyReprStr (s : String) : String :=
  ("'") ++ s ++ ("'")

/-- Python `str`/`repr` of a `list[str]`. -/
def pyReprStrList (xs : List String) : String :=
  ("[") ++ String.intercalate (", ") (xs.map pyReprStr) ++ ("]")

/-- Python `str`/`repr` of a `(str, list[str])` tuple. -/
def pyReprPair (p : String × List String) : String :=
  ("(") ++ pyReprStr p.1 ++ (", ") ++ pyReprStrList p.2 ++ (")")

/-- Python `str(sorted(codes.items()))`. -/
def pyStrItems (items : List (String × List String)) : String :=
  ("[") ++ String.intercalate (", ") (items.map pyReprPair) ++ ("]")

/-! ## `csv_processor._deduplicate_operations` / `_select_best_operation` -/

/-- The dedup group key:
`'|'.join([description, str(sorted(codes.items()))])`. -/
def opGroupKey (op : Op) : String :=
  String.intercalate ("|") [op.description, pyStrItems (sortItems op.codes)]

/-- The scoring rule of `_select_best_operation`: `1000 + cash_price` for
a record with a cash price, else `500 + 0.1 × gross_charge` for one with a
gross charge, else `0`.  (`0.1` is exact here; the float rounding of the
source is far below every comparison margin the theorems use.) -/
def score (op : Op) : ℚ :=
  match op.cash_price with
  | some c => 1000 + c
  | none =>
    match op.gross_charge with
    | some g => 500 + g * (1 / 10)
    | none => 0

/-- Embedding of `CSVProcessor._select_best_operation`: the survivor is
the head of the stable descending sort by score — the first score-maximal
candidate — copied, with `negotiated_min`/`negotiated_max` replaced by the
min of all members' non-null mins / max of all non-null maxes (Python
`min`/`max` of a nonempty list is a fold from its head). -/
def select_best_operation (operations : List Op) : Option Op :=
  match operations with
  | [] => none
  | x :: xs =>
    let best := xs.foldl (fun b o => if score b < score o then o else b) x
    let negotiated_min_values := operations.filterMap Op.negotiated_min
    let negotiated_max_values := operations.filterMap Op.negotiated_max
    some { best with
      negotiated_min :=
        match negotiated_min_values with
        | [] => best.negotiated_min
        | m :: ms => some (ms.foldl min m)
      negotiated_max :=
        match negotiated_max_values with
        | [] => best.negotiated_max
        | m :: ms => some (ms.foldl max m) }

/-- `groups[key].append(operation)`, creating the (insertion-ordered)
entry on first sight of the key. -/
def groupInsert : List (String × List Op) → String → Op →
    List (String × List Op)
  | [], k, op => [(k, [op])]
  | (k', ops') :: rest, k, op =>
    if k' = k then (k', ops' ++ [op]) :: rest
    else (k', ops') :: groupInsert rest k op

/-- The grouping pass of `_deduplicate_operations`. -/
def buildGroups (operations : List Op) : List (String × List Op) :=
  operations.foldl (fun gs op => groupInsert gs (opGroupKey op) op) []

/-- The collapse pass of `_deduplicate_operations`: per group in first-seen
order, pass singleton groups through and give larger groups to
`_select_best_operation`. -/
def collapseGroups : List (String × List Op) → List Op
  | [] => []
  | (_, gops) :: rest =>
    (match gops with
     | [] => []
     | [o] => [o]
     | _ => (select_best_operation gops).toList) ++ collapseGroups rest

/-- Embedding of `CSVProcessor._deduplicate_operations`. -/
def deduplicate_operations (operations : List Op) : List Op :=
  collapseGroups (buildGroups operations)

/-! ## `csv_processor._parse_csv_row_with_mapping` -/

/-- The code-type synonym table of the CSV extractor. -/
def type_mapping : List (String × String) :=
  [(("CPT"), ("HCPCS")), (("HCPCS"), ("HCPCS")), (("RC"), ("RC")),
   (("REV"), ("RC")), (("ICD10"), ("ICD-10")), (("ICD-10"), ("ICD-10")),
   (("ICD-10-CM"), ("ICD-10-CM")), (("ICD-10-PCS"), ("ICD-10-PCS")),
   (("ICD10CM"), ("ICD-10-CM")), (("ICD10PCS"), ("ICD-10-PCS"))]

/-- `type_mapping.get(ctv, ctv)`. -/
def typeMappingGet (ctv : String) : String :=
  (type_mapping.lookup ctv).getD ctv

/-- Python truthiness of an `Optional[Decimal]`: `None` and zero are
falsy. -/
def pyTruthyDec (o : Option ℚ) : Bool :=
  match o with
  | none => false
  | some q => decide (q ≠ 0)

/-- The code-type computation of one CSV code group: `unknown` without a
usable type cell, else the trimmed uppercased cell mapped through the
synonym table. -/
def csvCodeType (row : List (String × String)) (g : CodeGroup) : String :=
  match g.type with
  | none => ("unknown")
  | some type_col =>
    if type_col = "" then ("unknown")
    else
      let ctv := pyUpper (pyStrip (pyDictGetD row type_col ("")))
      if ctv = "" then ("unknown") else typeMappingGet ctv

/-- One iteration of the code-extraction loop of
`_parse_csv_row_with_mapping`: read and trim the code cell (skip when
blank or a sentinel), compute the code type, and keep the pair only for
standardized tags. -/
def csvCodeStep (row : List (String × String))
    (codes : List (String × List String)) (g : CodeGroup) :
    List (String × List String) :=
  match g.code with
  | none => codes
  | some code_col =>
    if code_col = "" then codes
    else
      let code_value := pyStrip (pyDictGetD row code_col (""))
      if code_value = "" ∨
          pyUpper code_value ∈ [("N/A"), ("NULL"), ("NONE")] then codes
      else
        let code_type := csvCodeType row g
        if is_standardized_code_type code_type then
          dictAppend codes code_type code_value
        else codes

/-- The code-extraction loop of `_parse_csv_row_with_mapping`. -/
def extractCodes (mapping : ColumnMapping) (row : List (String × String)) :
    List (String × List String) :=
  mapping.code_columns.foldl (csvCodeStep row) []

/-- Embedding of `CSVProcessor._parse_csv_row_with_mapping`: codes first
(row discarded when none survive), then the four prices through
`safe_decimal`, the positive-cash-price gate, description (default
`Unknown`), the outpatient filter, and pydantic validation. -/
def parseCsvRow (mapping : ColumnMapping) (facility_id : String)
    (row : List (String × String)) : Option Op :=
  let codes := extractCodes mapping row
  if codes = [] then none
  else
    let cash_price :=
      match mapping.cash_price with
      | none => none
      | some col => safe_decimal (pyDictGet? row col)
    let gross_charge :=
      match mapping.gross_charge with
      | none => none
      | some col => safe_decimal (pyDictGet? row col)
    let negotiated_min :=
      match mapping.min_negotiated with
      | none => none
      | some col => safe_decimal (pyDictGet? row col)
    let negotiated_max :=
      match mapping.max_negotiated with
      | none => none
      | some col => safe_decimal (pyDictGet? row col)
    -- `if not cash_price: return None`
    if ¬ pyTruthyDec cash_price then none
    else
      let description :=
        match mapping.description with
        | none => ("Unknown")
        | some col =>
          let d := pyStrip (pyDictGetD row col (""))
          if d = "" then ("Unknown") else d
      let settingOk : Bool :=
        match mapping.setting with
        | none => true
        | some col =>
          let s := pyLower (pyStrip (pyDictGetD row col ("")))
          s = "" ∨ s = ("outpatient")
      if ¬ settingOk then none
      else
        mkMedicalOperation facility_id codes description cash_price
          (if pyTruthyDec gross_charge then gross_charge else none)
          (if pyTruthyDec negotiated_min then negotiated_min else none)
          (if pyTruthyDec negotiated_max then negotiated_max else none)
          ("USD")

/-! ## `streaming_utils.stream_csv_rows`

A CSV file is modelled as its list of raw parsed rows (each a list of cell
strings, as `csv.reader` yields them). -/

/-- The row-padding loop: `while len(row) < len(header): row.append('')`. -/
def padTo (n : Nat) (row : List String) : List String :=
  row ++ List.replicate (n - row.length) ""

/-- Python dict assignment `d[k] = v`: overwrite in place, else append. -/
def dictSet : List (String × String) → String → String →
    List (String × String)
  | [], k, v => [(k, v)]
  | (k', v') :: rest, k, v =>
    if k' = k then (k', v) :: rest
    else (k', v') :: dictSet rest k v

/-- Python `dict(pairs)`: later bindings overwrite earlier ones, key
order is first-occurrence order. -/
def pyDict (l : List (String × String)) : List (String × String) :=
  l.foldl (fun d p => dictSet d p.1 p.2) []

/-- Embedding of `streaming_utils.stream_csv_rows`: skip the metadata
rows, take the next row as header (each name stripped), then yield
`dict(zip(header, row))` for every data row after padding it to the
header's length with empty strings.  (`zip` truncates at the shorter
sequence, so cells beyond the header are dropped.) -/
def stream_csv_rows (fileRows : List (List String)) (skip : Nat) :
    List (List (String × String)) :=
  match fileRows.drop skip with
  | [] => []
  | header :: dataRows =>
    let h := header.map pyStrip
    dataRows.map (fun row => pyDict (List.zip h (padTo h.length row)))

/-! ## `csv_processor.process_csv_file`

The orchestration is modelled as a pure function of the file's parsed
rows; the heuristic metadata-row count and the header-derived column
mapping enter as parameters, and the batch writer is observed as the list
of batches handed to it. -/

/-- Per-file ingestion statistics, as returned by both processors. -/
structure FileStats where
  total_records : Nat
  successful_records : Nat
  failed_records : Nat
deriving DecidableEq, Repr

/-- The batch-accumulation loop shared by both processors: append each
record to the current batch, count it successful, and flush whenever the
batch reaches `batchSize`.  State: (flushed batches, current batch,
successful count). -/
def batchLoop (batchSize : Nat)
    (st : List (List Op) × List Op × Nat) (op : Op) :
    List (List Op) × List Op × Nat :=
  let cur := st.2.1 ++ [op]
  if batchSize ≤ cur.length then (st.1 ++ [cur], [], st.2.2 + 1)
  else (st.1, cur, st.2.2 + 1)

/-- The final flush: `if batch_operations: insert(batch_operations)`. -/
def flushFinal (st : List (List Op) × List Op × Nat) : List (List Op) :=
  if st.2.1 = [] then st.1 else st.1 ++ [st.2.1]

/-- Embedding of `CSVProcessor.process_csv_file`: stream the rows,
extract (counting failures), deduplicate the full extracted list, then
batch-write the deduplicated records while counting them as successful.
Returns the statistics dict and the written batches. -/
def process_csv_file (mapping : ColumnMapping) (facility_id : String)
    (batchSize : Nat) (fileRows : List (List String))
    (metadataRows : Nat) : FileStats × List (List Op) :=
  let rows := stream_csv_rows fileRows metadataRows
  let extractStep := rows.foldl (fun (st : List Op × Nat) row =>
    match parseCsvRow mapping facility_id row with
    | some op => (st.1 ++ [op], st.2)
    | none => (st.1, st.2 + 1)) ([], 0)
  let all_operations := extractStep.1
  let failed_records := extractStep.2
  let deduplicated := deduplicate_operations all_operations
  let writeSt := deduplicated.foldl (batchLoop batchSize) ([], [], 0)
  let successful_records := writeSt.2.2
  (⟨successful_records + failed_records, successful_records,
    failed_records⟩, flushFinal writeSt)

/-! ## `json_processor.JSONProcessor`

JSON values reaching the price fields are modelled by `JVal`; `float(v)`
returning `none` models the exception paths (non-numeric strings, `None`,
lists, dicts).  `code_information` entries are modelled after the
`.get` defaults: `none` for a non-dict entry, otherwise the
`(type, code)` pair. -/

/-- A JSON value in a price field. -/
inductive JVal where
  | num (q : ℚ)
  | str (s : String)
  | bool (b : Bool)
  | null
  | arr
  | obj
deriving DecidableEq, Repr

/-- Python `float(v)` on a JSON value: numbers (ints/Decimals from the
streaming parser) convert exactly, strings go through the float literal
grammar (surrounding whitespace allowed), booleans are 1/0, anything else
raises (`none`). -/
def pyFloat? : JVal → Option ℚ
  | .num q => some q
  | .str s => parseDecimal (pyStrip s)
  | .bool b => some (if b then 1 else 0)
  | _ => none

/-- The first element of `standard_charges`, with the `.get` views the
extractor takes of it: the four optional price fields (`none` = key
absent) and the setting string (`""` when absent). -/
structure JCharge where
  discounted_cash : Option JVal := none
  gross_charge : Option JVal := none
  minimum : Option JVal := none
  maximum : Option JVal := none
  setting : String := ""
deriving DecidableEq, Repr

/-- One item of the streamed `standard_charge_information` array. -/
structure JItem where
  description : String := ""
  code_information : List (Option (String × String)) := []
  standard_charges : List JCharge := []
deriving DecidableEq, Repr

/-- A streamed element as `_parse_json_item` receives it: a dict, or a
non-dict value (skipped by the `isinstance` check). -/
inductive JThing where
  | item (it : JItem)
  | notDict
deriving DecidableEq, Repr

/-- One entry of `_extract_codes_from_item`: keep the
`(code_type, code)` of a dict entry whose type is standardized. -/
def jsonCodeFilterStep (acc : List (String × String))
    (e : Option (String × String)) : List (String × String) :=
  match e with
  | none => acc
  | some (t, c) =>
    if is_standardized_code_type t then acc ++ [(t, c)] else acc

/-- Embedding of `JSONProcessor._extract_codes_from_item`. -/
def extract_codes_from_item (it : JItem) : List (String × String) :=
  it.code_information.foldl jsonCodeFilterStep []

/-- One `if key in charge: prices[k] = float(charge[key])` step of
`_extract_prices_from_item`: `some none` when the key is absent,
`some (some q)` on successful conversion, `none` when `float` raises. -/
def convPrice (o : Option JVal) : Option (Option ℚ) :=
  match o with
  | none => some none
  | some v =>
    match pyFloat? v with
    | some q => some (some q)
    | none => none

/-- Embedding of `JSONProcessor._extract_prices_from_item`: read the four
mapped keys of the first standard charge, converting each present value
with `float`; `none` models a conversion exception escaping to the item
handler. -/
def extract_prices_from_item (it : JItem) :
    Option (Option ℚ × Option ℚ × Option ℚ × Option ℚ) :=
  match it.standard_charges with
  | [] => some (none, none, none, none)
  | charge :: _ =>
    match convPrice charge.discounted_cash, convPrice charge.gross_charge,
        convPrice charge.minimum, convPrice charge.maximum with
    | some a, some b, some c, some d => some (a, b, c, d)
    | _, _, _, _ => none

/-- Embedding of `JSONProcessor._extract_setting_from_item`. -/
def extract_setting_from_item (it : JItem) : Option String :=
  match it.standard_charges with
  | [] => none
  | charge :: _ =>
    let s := pyLower (pyStrip charge.setting)
    if s = "" then none else some s

/-- One iteration of the codes loop of `_parse_json_item`: skip entries
with an empty code (`if not code_info.get("code")`), fold a CPT type tag
(any case) into exactly `HCPCS`, and append to the codes dict. -/
def jsonCodeDictStep (cd : List (String × List String))
    (tc : String × String) : List (String × List String) :=
  if tc.2 = "" then cd
  else
    let t := if pyUpper tc.1 = ("CPT") then ("HCPCS") else tc.1
    dictAppend cd t tc.2

/-- Embedding of `JSONProcessor._parse_json_item`: skip non-dicts, apply
the outpatient filter, extract prices (an exception yields no record),
require a positive cash price, build the codes dict (skipping empty codes
and folding CPT into HCPCS), and validate; at most one record per item. -/
def parse_json_item (thing : JThing) (facility_id : String) : List Op :=
  match thing with
  | .notDict => []
  | .item it =>
    let setting := extract_setting_from_item it
    if (match setting with
        | some s => s ≠ ("outpatient")
        | none => false : Bool) then []
    else
      match extract_prices_from_item it with
      | none => []
      | some (cash_price, gross_charge, negotiated_min, negotiated_max) =>
        match cash_price with
        | none => []
        | some c =>
          if c ≤ 0 then []
          else
            let codes_dict := (extract_codes_from_item it).foldl
              jsonCodeDictStep []
            if codes_dict = [] then []
            else
              match mkMedicalOperation facility_id codes_dict
                  it.description (some c) gross_charge negotiated_min
                  negotiated_max ("USD") with
              | some op => [op]
              | none => []

/-- Embedding of `JSONProcessor.process_json_file`: stream the items (an
item that is itself a list is unwrapped one level), parse each, and
batch-write records as they accumulate — there is no deduplication pass on
this path.  Returns the statistics and the written batches. -/
def process_json_file (facility_id : String) (batchSize : Nat)
    (streamed : List (JThing ⊕ List JThing)) : FileStats × List (List Op) :=
  let handleThing := fun (st : List (List Op) × List Op × Nat)
      (t : JThing) => (parse_json_item t facility_id).foldl
        (batchLoop batchSize) st
  let writeSt := streamed.foldl (fun st el =>
    match el with
    | .inl t => handleThing st t
    | .inr l => l.foldl handleThing st) ([], [], 0)
  let successful_records := writeSt.2.2
  (⟨successful_records + 0, successful_records, 0⟩, flushFinal writeSt)

/-! ## `format_detector` -/

/-- The detector's classification. -/
inductive FileFormat where
  | csv
  | json
  | ndjson
  | unknown
deriving DecidableEq, Repr

/-- The character `{`. -/
def openBraceChar : Char := Char.ofNat 123

/-- Python `s.startswith(c)` for a single character. -/
def startsWithChar (s : String) (c : Char) : Bool :=
  match s.data with
  | [] => false
  | d :: _ => d = c

/-- Embedding of `format_detector.detect_json_type`.  The file is its
list of lines; `readline()` on a missing line returns `""`.  `parses`
stands for `json.loads` succeeding on a line.  The first two lines are
read and stripped; if both are non-empty and both parse, the file is
NDJSON; else if the stripped first line starts with `{` or `[` it is
JSON; the default is JSON as well. -/
def detect_json_type (parses : String → Bool) (fileLines : List String) :
    FileFormat :=
  let first_line := pyStrip ((fileLines.get? 0).getD "")
  let second_line := pyStrip ((fileLines.get? 1).getD "")
  if (first_line ≠ "" ∧ second_line ≠ "") ∧
      (parses first_line ∧ parses second_line) then FileFormat.ndjson
  else if startsWithChar first_line openBraceChar ∨
      startsWithChar first_line '[' then FileFormat.json
  else FileFormat.json

/-- Embedding of `format_detector.detect_file_format`: extension dispatch
first (`.csv`, `.ndjson`/`.jsonl`, `.json`), then the 1KB content
sniff. -/
def detect_file_format (ext : String) (parses : String → Bool)
    (content : String) (fileLines : List String) : FileFormat :=
  if ext = (".csv") then FileFormat.csv
  else if ext ∈ [(".ndjson"), (".jsonl")] then FileFormat.ndjson
  else if ext = (".json") then detect_json_type parses fileLines
  else
    let sample := String.mk (content.data.take 1024)
    let jsonFallback :=
      let ss := pyStrip sample
      if startsWithChar ss openBraceChar ∨ startsWithChar ss '[' then
        detect_json_type parses fileLines
      else FileFormat.unknown
    if sample.data.contains ',' ∧ sample.data.contains '\n' then
      let lines3 : List String := (sample.splitOn ("\n")).take 3
      let comma_counts : List Nat := lines3.map (fun l => l.data.count ',')
      if comma_counts.eraseDups.length = 1 ∧ 3 < comma_counts.headD 0 then
        FileFormat.csv
      else jsonFallback
    else jsonFallback

/-! ## Concrete scenario inputs and auxiliary predicates

Named inputs used by the concrete evaluations below, the group
well-formedness predicate, and the spec-side detector definitions
(the latter are written from the claim's words, to be compared with
the embedding). -/

/-- The column mapping of the C4/C6 CSV scenario. -/
def mapC4 : ColumnMapping :=
  { description := some ("description"), cash_price := some ("cash"),
    min_negotiated := some ("min"), max_negotiated := some ("max"),
    code_columns := [⟨some ("code"), some ("code_type")⟩] }

/-- A CSV row carrying `negotiated_min = 200` and `negotiated_max = 100`. -/
def rowC4 : List (String × String) :=
  [(("description"), ("X")), (("code"), ("A")), (("code_type"), ("HCPCS")),
   (("cash"), ("50")), (("min"), ("200")), (("max"), ("100"))]

/-- The five standardized tags that can appear as keys of an extracted
record's codes mapping (`CPT` never survives: it is folded into
`HCPCS`). -/
def allowedTags : List String :=
  [("HCPCS"), ("RC"), ("ICD-10"), ("ICD-10-CM"), ("ICD-10-PCS")]

/-- A JSON item whose single code entry carries the lowercase type tag
`rc` (which passes the case-insensitive standardized-type filter). -/
def itemRc : JItem :=
  { description := ("X"),
    code_information := [some ((("rc"), ("A")))],
    standard_charges := [{ discounted_cash := some (JVal.num 100) }] }

/-- The record the CSV extractor produces from `rowC4` under `mapC4`. -/
def opRowC4 : Op :=
  ⟨("fac"), [(("HCPCS"), [("A")])], ("X"), some 50, none, some 200,
    some 100, ("USD")⟩

/-- The record the JSON extractor produces from `itemRc`. -/
def opItemRc : Op :=
  ⟨("fac"), [(("rc"), [("A")])], ("X"), some 100, none, none, none,
    ("USD")⟩

/-- First candidate of the spec's range-widening example:
negotiated range (100, 200). -/
def opRangeA : Op :=
  ⟨("fac"), [(("HCPCS"), [("A")])], ("X"), some 50, none, some 100,
    some 200, ("USD")⟩

/-- Second candidate of the spec's range-widening example:
negotiated range (150, 300). -/
def opRangeB : Op :=
  ⟨("fac"), [(("HCPCS"), [("A")])], ("X"), some 60, none, some 150,
    some 300, ("USD")⟩

/-- A dedup candidate with no cash price and a gross charge of 10000:
its score is `500 + 0.1 × 10000 = 1500`. -/
def opGross10000 : Op :=
  ⟨("fac"), [(("HCPCS"), [("A")])], ("X"), none, some 10000, none, none,
    ("USD")⟩

/-- A dedup candidate with cash price 50: its score is `1000 + 50`. -/
def opCash50 : Op :=
  ⟨("fac"), [(("HCPCS"), [("A")])], ("X"), some 50, none, none, none,
    ("USD")⟩

/-- A gross-only candidate with the spec example's gross charge of 1000:
its score is `500 + 0.1 × 1000 = 600 < 1050`. -/
def opGross1000 : Op :=
  ⟨("fac"), [(("HCPCS"), [("A")])], ("X"), none, some 1000, none, none,
    ("USD")⟩

/-- Well-formedness of the grouping pass: distinct keys, and every member
of a group carries the group's key. -/
def GroupsWF (gs : List (String × List Op)) : Prop :=
  (gs.map Prod.fst).Nodup ∧ ∀ p ∈ gs, ∀ o ∈ p.2, opGroupKey o = p.1

/-- A record whose HCPCS code list reads `[A, B]`. -/
def opCodesAB : Op :=
  ⟨("fac"), [(("HCPCS"), [("A"), ("B")])], ("X"), some 50, none, none,
    none, ("USD")⟩

/-- The same record with the code list reordered to `[B, A]`. -/
def opCodesBA : Op :=
  ⟨("fac"), [(("HCPCS"), [("B"), ("A")])], ("X"), some 50, none, none,
    none, ("USD")⟩

/-- A record with two code-type entries in one order… -/
def opTwoTypes : Op :=
  ⟨("fac"), [(("HCPCS"), [("A")]), (("RC"), [("B")])], ("X"), some 50,
    none, none, none, ("USD")⟩

/-- …and the same record with the two entries swapped. -/
def opTwoTypesSwapped : Op :=
  ⟨("fac"), [(("RC"), [("B")]), (("HCPCS"), [("A")])], ("X"), some 60,
    none, none, none, ("USD")⟩

/-- C2 (counterexample): streaming the same JSON item twice hands the
batch writer two records with the same group key — the JSON path
batch-writes records as they are extracted and never deduplicates.
`writtenJsonDup` is the flattened batch output of such a run. -/
def writtenJsonDup : List Op :=
  ((process_json_file ("fac") 1000
    [Sum.inl (JThing.item itemRc), Sum.inl (JThing.item itemRc)]).2).flatten

/-- The claim's description of JSON-subtype detection, written from the
spec's words: read the first two NON-EMPTY lines; if both parse as JSON
values classify NDJSON; otherwise classify JSON when the file's first
non-whitespace character is `{` or `[` (and JSON is also the default). -/
def spec_detect_json_type (parses : String → Bool)
    (fileLines : List String) : FileFormat :=
  let nonEmpty := (fileLines.map pyStrip).filter (fun l => l ≠ "")
  let firstNonWs := pyStrip (String.intercalate ("\n") fileLines)
  match nonEmpty with
  | a :: b :: _ =>
    if parses a ∧ parses b then FileFormat.ndjson
    else if startsWithChar firstNonWs openBraceChar ∨
        startsWithChar firstNonWs '[' then FileFormat.json
    else FileFormat.json
  | _ =>
    if startsWithChar firstNonWs openBraceChar ∨
        startsWithChar firstNonWs '[' then FileFormat.json
    else FileFormat.json

/-- A `json.loads` oracle for the counterexample file: exactly the lines
`1` and `2` parse (as the JSON numbers 1 and 2). -/
def parsesC8 (s : String) : Bool :=
  s ∈ [("1"), ("2")]

/-- The amended description: `detect_json_type` reads the first two lines
of the file verbatim (a missing line reads as empty; blank lines are NOT
skipped) and strips them; if both are non-empty and both parse as JSON it
classifies NDJSON; otherwise it classifies JSON when the stripped first
line starts with `{` or `[`, and JSON is also the default. -/
def amended_detect_json_type (parses : String → Bool)
    (fileLines : List String) : FileFormat :=
  let l1 := pyStrip ((fileLines.get? 0).getD "")
  let l2 := pyStrip ((fileLines.get? 1).getD "")
  if (l1 ≠ "" ∧ l2 ≠ "") ∧ (parses l1 ∧ parses l2) then FileFormat.ndjson
  else if startsWithChar l1 openBraceChar ∨ startsWithChar l1 '[' then
    FileFormat.json
  else FileFormat.json

/-! ## Helper lemmas: uppercasing is idempotent -/

theorem char_toNat_ofNat_valid (n : Nat) (h : n.isValidChar) :
    (Char.ofNat n).toNat = n := by
  simp [Char.ofNat, h, Char.ofNatAux, Char.toNat, UInt32.toNat,
    BitVec.toNat_ofNatLt]

theorem char_toUpper_eq (c : Char) :
    c.toUpper = if c.toNat ≥ 97 ∧ c.toNat ≤ 122 then
      Char.ofNat (c.toNat - 32) else c := rfl

theorem char_toUpper_idem (c : Char) : c.toUpper.toUpper = c.toUpper := by
  rw [char_toUpper_eq c]
  by_cases h : c.toNat ≥ 97 ∧ c.toNat ≤ 122
  · have hv : (c.toNat - 32).isValidChar := Or.inl (by omega)
    have ht := char_toNat_ofNat_valid (c.toNat - 32) hv
    rw [if_pos h, char_toUpper_eq, ht, if_neg (by omega)]
  · rw [if_neg h, char_toUpper_eq c, if_neg h]

theorem pyUpper_idem (s : String) : pyUpper (pyUpper s) = pyUpper s := by
  simp [pyUpper, List.map_map, Function.comp_def, char_toUpper_idem]

/-! ## Claim C7: the cash-price gate and numeric-cleaning positivity -/

theorem safe_decimal_pos (v : Option String) (q : ℚ)
    (h : safe_decimal v = some q) : 0 < q := by
  cases v with
  | none => simp [safe_decimal] at h
  | some s =>
    unfold safe_decimal at h
    split at h
    · exact absurd h (by simp)
    · dsimp only [] at h
      repeat' split at h
      all_goals simp_all

theorem csv_cash_gate (mapping : ColumnMapping) (fid : String)
    (row : List (String × String))
    (h : match mapping.cash_price with
         | none => True
         | some col => safe_decimal (pyDictGet? row col) = none) :
    parseCsvRow mapping fid row = none := by
  unfold parseCsvRow
  by_cases hc : extractCodes mapping row = []
  · simp [hc]
  · cases hm : mapping.cash_price with
    | none => simp [hc, hm, pyTruthyDec]
    | some col =>
      rw [hm] at h
      simp [hc, hm, h, pyTruthyDec]

theorem extract_prices_cash_bad (it : JItem)
    (h : match it.standard_charges with
         | [] => True
         | ch :: _ =>
           match ch.discounted_cash with
           | none => True
           | some v => pyFloat? v = none ∨ ∃ q, pyFloat? v = some q ∧ q ≤ 0) :
    extract_prices_from_item it = none ∨
    (∃ r, extract_prices_from_item it = some (none, r)) ∨
    (∃ q r, extract_prices_from_item it = some (some q, r) ∧ q ≤ 0) := by
  unfold extract_prices_from_item
  cases hch : it.standard_charges with
  | nil => exact Or.inr (Or.inl ⟨(none, none, none), rfl⟩)
  | cons ch rest =>
    rw [hch] at h
    have h2 : (match ch.discounted_cash with
        | none => True
        | some v =>
          pyFloat? v = none ∨ ∃ q, pyFloat? v = some q ∧ q ≤ 0) := h
    have hcash : convPrice ch.discounted_cash = none ∨
        convPrice ch.discounted_cash = some none ∨
        ∃ q, convPrice ch.discounted_cash = some (some q) ∧ q ≤ 0 := by
      cases hdc : ch.discounted_cash with
      | none => exact Or.inr (Or.inl rfl)
      | some v =>
        rw [hdc] at h2
        rcases h2 with hf | ⟨q, hq, hle⟩
        · exact Or.inl (by simp [convPrice, hf])
        · exact Or.inr (Or.inr ⟨q, by simp [convPrice, hq], hle⟩)
    dsimp only []
    rcases hcash with hc0 | hc1 | ⟨q, hc2, hle⟩
    · rw [hc0]
      cases convPrice ch.gross_charge <;> cases convPrice ch.minimum <;>
        cases convPrice ch.maximum <;> simp
    · rw [hc1]
      cases hg : convPrice ch.gross_charge <;>
        cases hmn : convPrice ch.minimum <;>
        cases hmx : convPrice ch.maximum <;> simp
    · rw [hc2]
      cases hg : convPrice ch.gross_charge <;>
        cases hmn : convPrice ch.minimum <;>
        cases hmx : convPrice ch.maximum <;> simp [hle]

theorem json_cash_gate (fid : String) (it : JItem)
    (h : match it.standard_charges with
         | [] => True
         | ch :: _ =>
           match ch.discounted_cash with
           | none => True
           | some v => pyFloat? v = none ∨ ∃ q, pyFloat? v = some q ∧ q ≤ 0) :
    parse_json_item (JThing.item it) fid = [] := by
  have hp := extract_prices_cash_bad it h
  simp only [parse_json_item]
  split
  · rfl
  · rcases hp with hp | ⟨⟨g, mn, mx⟩, hp⟩ | ⟨q, ⟨g, mn, mx⟩, hp, hle⟩ <;>
      rw [hp] <;> dsimp only [] <;> first
      | rfl
      | simp [hle]

/-- C7: for every raw CSV row or JSON item whose cash price is absent,
blank, a sentinel token ("N/A","NULL","NONE","-"), non-parseable, zero, or
negative, neither extractor emits a record (for CSV those conditions are
exactly `safe_decimal` returning `None` on the cash cell; for JSON they
are `float` raising or yielding a non-positive value, or the key being
absent); and the numeric-cleaning routine `safe_decimal` never yields zero
or a negative value. -/
theorem C7_cash_gate_and_cleaning :
    (∀ (mapping : ColumnMapping) (fid : String)
        (row : List (String × String)),
      (match mapping.cash_price with
       | none => True
       | some col => safe_decimal (pyDictGet? row col) = none) →
      parseCsvRow mapping fid row = none) ∧
    (∀ (fid : String) (it : JItem),
      (match it.standard_charges with
       | [] => True
       | ch :: _ =>
         match ch.discounted_cash with
         | none => True
         | some v => pyFloat? v = none ∨ ∃ q, pyFloat? v = some q ∧ q ≤ 0) →
      parse_json_item (JThing.item it) fid = []) ∧
    (∀ (v : Option String) (q : ℚ), safe_decimal v = some q → 0 < q) ∧
    safe_decimal none = none ∧ safe_decimal (some "") = none ∧
    safe_decimal (some ("N/A")) = none ∧
    safe_decimal (some ("null")) = none ∧
    safe_decimal (some (" None ")) = none ∧
    safe_decimal (some ("-")) = none ∧
    safe_decimal (some ("abc")) = none ∧
    safe_decimal (some ("0")) = none ∧
    safe_decimal (some ("$0.00")) = none ∧
    safe_decimal (some ("-42")) = none :=
  ⟨csv_cash_gate, json_cash_gate, safe_decimal_pos, rfl, by decide,
    by decide, by decide, by decide, by decide, by decide,
    by with_unfolding_all decide, by with_unfolding_all decide,
    by with_unfolding_all decide⟩

/-- Concrete instantiation of `C7_cash_gate_and_cleaning`: a CSV row whose
cash cell reads `N/A` yields no record; a JSON item whose
`discounted_cash` is the string `"N/A"` yields no record; `safe_decimal`
on `"7"` yields the positive value 7. -/
theorem C7_cash_gate_and_cleaning_witness :
    parseCsvRow
      { cash_price := some ("cash"),
        code_columns := [⟨some ("code"), some ("type_col")⟩] } ("fac")
      [(("code"), ("A")), (("type_col"), ("HCPCS")), (("cash"), ("N/A"))]
      = none ∧
    parse_json_item (JThing.item
      { standard_charges := [{ discounted_cash := some (JVal.str ("N/A")) }] })
      ("fac") = [] ∧
    (0 : ℚ) < 7 :=
  ⟨C7_cash_gate_and_cleaning.1 _ _ _ (by decide),
   C7_cash_gate_and_cleaning.2.1 _ _ (Or.inl (by decide)),
   C7_cash_gate_and_cleaning.2.2.1 (some ("7")) 7
     (by with_unfolding_all decide)⟩

/-! ## Claim C4: the negotiated-price invariant

`MedicalOperation.validate_negotiated_prices` guards on
`'negotiated_min' in values and 'negotiated_max' in values`, but in
pydantic v1 `values` holds only the fields validated *before* the one
being validated — so when `negotiated_min` runs neither name is present,
and when `negotiated_max` runs `negotiated_max` itself is still absent.
The guard is never true and the check is dead code: a record with
`negotiated_min > negotiated_max` validates successfully. -/

/-- The guard of the validator is false at both of its call sites. -/
theorem validate_negotiated_prices_dead (vmin vmax : Option ℚ) :
    validate_negotiated_prices valuesBeforeNegotiatedMin vmin vmax = true ∧
    validate_negotiated_prices valuesBeforeNegotiatedMax vmin vmax = true := by
  constructor <;> unfold validate_negotiated_prices <;>
    rw [if_neg (by decide)]

/-- C4 (failing input): the CSV extractor emits a fully validated record
with `negotiated_min = 200 > 100 = negotiated_max`; the pydantic
validator that should reject it never fires. -/
theorem C4_min_le_max_violated :
    (parseCsvRow mapC4 ("fac") rowC4).map
        (fun o => (o.negotiated_min, o.negotiated_max)) =
      some (some 200, some 100) ∧
    ¬ ((200 : ℚ) ≤ 100) ∧
    (∀ vmin vmax : Option ℚ,
      validate_negotiated_prices valuesBeforeNegotiatedMin vmin vmax = true ∧
      validate_negotiated_prices valuesBeforeNegotiatedMax vmin vmax = true) :=
  ⟨by with_unfolding_all decide, by norm_num,
   validate_negotiated_prices_dead⟩

/-! ## Claim C6: codes are non-empty with standardized keys -/

theorem mkMedicalOperation_fields {facility_id : String}
    {codes : List (String × List String)} {description : String}
    {cash_price gross_charge negotiated_min negotiated_max : Option ℚ}
    {currency : String} {op : Op}
    (h : mkMedicalOperation facility_id codes description cash_price
      gross_charge negotiated_min negotiated_max currency = some op) :
    op.codes = codes ∧ op.description = description ∧
    op.cash_price = cash_price ∧ op.gross_charge = gross_charge ∧
    op.negotiated_min = negotiated_min ∧
    op.negotiated_max = negotiated_max := by
  unfold mkMedicalOperation at h
  dsimp only [] at h
  split at h
  · cases h
    exact ⟨rfl, rfl, rfl, rfl, rfl, rfl⟩
  · cases h

theorem dictAppend_keys {l : List (String × List String)} {k v : String} :
    ∀ p ∈ dictAppend l k v, (∃ q ∈ l, p.1 = q.1) ∨ p.1 = k := by
  induction l with
  | nil =>
    intro p hp
    simp [dictAppend] at hp
    simp [hp]
  | cons q rest ih =>
    intro p hp
    unfold dictAppend at hp
    split at hp
    · rcases List.mem_cons.1 hp with h | h
      · exact Or.inl ⟨q, List.mem_cons_self q rest, by rw [h]⟩
      · exact Or.inl ⟨p, List.mem_cons.2 (Or.inr h), rfl⟩
    · rcases List.mem_cons.1 hp with h | h
      · exact Or.inl ⟨q, List.mem_cons_self q rest, by rw [h]⟩
      · rcases ih p h with ⟨q', hq', e⟩ | e
        · exact Or.inl ⟨q', List.mem_cons.2 (Or.inr hq'), e⟩
        · exact Or.inr e

theorem typeMappingGet_standardized (y : String)
    (h : is_standardized_code_type (typeMappingGet (pyUpper y)) = true) :
    typeMappingGet (pyUpper y) ∈ allowedTags := by
  unfold typeMappingGet at h ⊢
  revert h
  cases hl : type_mapping.lookup (pyUpper y) with
  | some v =>
    intro h
    rcases List.lookup_eq_some_iff.1 hl with ⟨l₁, l₂, heq, _⟩
    have hmem : (pyUpper y, v) ∈ type_mapping := by
      rw [heq]
      simp
    simp only [type_mapping, List.mem_cons, List.not_mem_nil, or_false,
      Prod.mk.injEq] at hmem
    rcases hmem with ⟨_, rfl⟩ | ⟨_, rfl⟩ | ⟨_, rfl⟩ | ⟨_, rfl⟩ | ⟨_, rfl⟩ |
      ⟨_, rfl⟩ | ⟨_, rfl⟩ | ⟨_, rfl⟩ | ⟨_, rfl⟩ | ⟨_, rfl⟩ <;>
      simp [allowedTags]
  | none =>
    intro h
    simp only [Option.getD_none] at h ⊢
    unfold is_standardized_code_type at h
    rw [pyUpper_idem] at h
    simp only [standardized_types, List.mem_cons, List.not_mem_nil,
      or_false, decide_eq_true_eq] at h
    rcases h with h | h | h | h | h | h <;> rw [h] at hl <;>
      exact absurd hl (by decide)

theorem csvCodeType_allowed (row : List (String × String)) (g : CodeGroup)
    (h : is_standardized_code_type (csvCodeType row g) = true) :
    csvCodeType row g ∈ allowedTags := by
  unfold csvCodeType at h ⊢
  revert h
  cases g.type with
  | none =>
    dsimp only []
    intro h
    exact absurd h (by decide)
  | some type_col =>
    dsimp only []
    by_cases ht : type_col = ""
    · rw [if_pos ht]
      intro h
      exact absurd h (by decide)
    · rw [if_neg ht]
      by_cases hc : pyUpper (pyStrip (pyDictGetD row type_col (""))) = ""
      · rw [if_pos hc]
        intro h
        exact absurd h (by decide)
      · rw [if_neg hc]
        exact typeMappingGet_standardized _

theorem csvCodeStep_keys (row : List (String × String))
    (codes : List (String × List String)) (g : CodeGroup)
    (hacc : ∀ p ∈ codes, p.1 ∈ allowedTags) :
    ∀ p ∈ csvCodeStep row codes g, p.1 ∈ allowedTags := by
  unfold csvCodeStep
  split
  · exact hacc
  · split
    · exact hacc
    · dsimp only []
      split
      · exact hacc
      · split
        · rename_i hstd
          intro p hp
          rcases dictAppend_keys p hp with ⟨q, hq, e⟩ | e
          · exact e ▸ hacc q hq
          · rw [e]
            exact csvCodeType_allowed _ _ hstd
        · exact hacc

theorem extractCodes_keys (mapping : ColumnMapping)
    (row : List (String × String)) :
    ∀ p ∈ extractCodes mapping row, p.1 ∈ allowedTags := by
  unfold extractCodes
  generalize hacc : ([] : List (String × List String)) = acc
  have h0 : ∀ p ∈ acc, p.1 ∈ allowedTags := by
    rw [← hacc]
    simp
  clear hacc
  induction mapping.code_columns generalizing acc with
  | nil => exact h0
  | cons g rest ih =>
    rw [List.foldl_cons]
    exact ih _ (csvCodeStep_keys row acc g h0)

theorem csv_codes_spec (mapping : ColumnMapping) (fid : String)
    (row : List (String × String)) (op : Op)
    (h : parseCsvRow mapping fid row = some op) :
    op.codes ≠ [] ∧ ∀ p ∈ op.codes, p.1 ∈ allowedTags := by
  unfold parseCsvRow at h
  dsimp only [] at h
  repeat' split at h
  all_goals first
    | exact absurd h (by simp)
    | (have hf := mkMedicalOperation_fields h
       rw [hf.1]
       exact ⟨by assumption, extractCodes_keys mapping row⟩)

theorem jsonCodeFilter_std (entries : List (Option (String × String)))
    (acc : List (String × String))
    (hacc : ∀ tc ∈ acc, is_standardized_code_type tc.1 = true) :
    ∀ tc ∈ entries.foldl jsonCodeFilterStep acc,
      is_standardized_code_type tc.1 = true := by
  induction entries generalizing acc with
  | nil => exact hacc
  | cons e rest ih =>
    rw [List.foldl_cons]
    refine ih _ ?_
    unfold jsonCodeFilterStep
    split
    · exact hacc
    · split
      · rename_i t c hstd
        intro tc htc
        rcases List.mem_append.1 htc with hmem | hmem
        · exact hacc tc hmem
        · simp at hmem
          rw [hmem]
          exact hstd
      · exact hacc

theorem extract_codes_std (it : JItem) :
    ∀ tc ∈ extract_codes_from_item it,
      is_standardized_code_type tc.1 = true :=
  jsonCodeFilter_std it.code_information [] (by simp)

theorem jsonCodeDictStep_keys (cd : List (String × List String))
    (tc : String × String)
    (hacc : ∀ p ∈ cd, pyUpper p.1 ∈ allowedTags)
    (hstd : is_standardized_code_type tc.1 = true) :
    ∀ p ∈ jsonCodeDictStep cd tc, pyUpper p.1 ∈ allowedTags := by
  unfold jsonCodeDictStep
  split
  · exact hacc
  · dsimp only []
    intro p hp
    rcases dictAppend_keys p hp with ⟨q, hq, e⟩ | e
    · exact e ▸ hacc q hq
    · rw [e]
      split
      · decide
      · rename_i hcpt
        unfold is_standardized_code_type at hstd
        simp only [standardized_types, List.mem_cons, List.not_mem_nil,
          or_false, decide_eq_true_eq] at hstd
        rcases hstd with hh | hh | hh | hh | hh | hh <;>
          first
          | exact absurd hh hcpt
          | (rw [hh]; decide)

theorem json_codes_fold_keys :
    ∀ (l : List (String × String)) (acc : List (String × List String)),
    (∀ tc ∈ l, is_standardized_code_type tc.1 = true) →
    (∀ p ∈ acc, pyUpper p.1 ∈ allowedTags) →
    ∀ p ∈ l.foldl jsonCodeDictStep acc, pyUpper p.1 ∈ allowedTags := by
  intro l
  induction l with
  | nil => exact fun acc _ hacc => hacc
  | cons tc rest ih =>
    intro acc hl hacc
    rw [List.foldl_cons]
    exact ih _ (fun q hq => hl q (List.mem_cons.2 (Or.inr hq)))
      (jsonCodeDictStep_keys acc tc hacc (hl tc (List.mem_cons_self tc rest)))

theorem json_codes_spec (thing : JThing) (fid : String) (op : Op)
    (h : op ∈ parse_json_item thing fid) :
    op.codes ≠ [] ∧ ∀ p ∈ op.codes, pyUpper p.1 ∈ allowedTags := by
  cases thing with
  | notDict => simp [parse_json_item] at h
  | item it =>
    simp only [parse_json_item] at h
    repeat' split at h
    all_goals first
      | (simp only [List.mem_singleton] at h
         subst h
         have hf := mkMedicalOperation_fields (by assumption)
         rw [hf.1]
         exact ⟨by assumption, json_codes_fold_keys _ _
           (extract_codes_std it) (by simp)⟩)
      | exact absurd h (by simp)

/-- C6 (counterexample): the JSON extractor emits a record whose codes
key is the lowercase string `rc`, which is not an element of
{HCPCS, RC, ICD-10, ICD-10-CM, ICD-10-PCS} — the JSON path preserves the
letter case of the input type tag. -/
theorem C6_counterexample :
    (parse_json_item (JThing.item itemRc) ("fac")).map Op.codes =
      [[(("rc"), [("A")])]] ∧ ("rc") ∉ allowedTags :=
  ⟨by with_unfolding_all decide, by decide⟩

/-- C6 (amended): every record emitted by either extractor has a
non-empty codes mapping; every key of a CSV-extracted record is exactly
an element of {HCPCS, RC, ICD-10, ICD-10-CM, ICD-10-PCS}; every key of a
JSON-extracted record is an element of that set up to letter case (its
uppercasing is in the set; a CPT tag of any case becomes exactly
`HCPCS`). -/
theorem C6_codes_invariant_amended :
    (∀ (mapping : ColumnMapping) (fid : String)
        (row : List (String × String)) (op : Op),
      parseCsvRow mapping fid row = some op →
      op.codes ≠ [] ∧ ∀ p ∈ op.codes, p.1 ∈ allowedTags) ∧
    (∀ (thing : JThing) (fid : String) (op : Op),
      op ∈ parse_json_item thing fid →
      op.codes ≠ [] ∧ ∀ p ∈ op.codes, pyUpper p.1 ∈ allowedTags) :=
  ⟨csv_codes_spec, json_codes_spec⟩

/-- Concrete instantiation of `C6_codes_invariant_amended` on the CSV row
`rowC4` and the JSON item `itemRc`. -/
theorem C6_codes_invariant_amended_witness :
    (opRowC4.codes ≠ [] ∧ ∀ p ∈ opRowC4.codes, p.1 ∈ allowedTags) ∧
    (opItemRc.codes ≠ [] ∧ ∀ p ∈ opItemRc.codes,
      pyUpper p.1 ∈ allowedTags) :=
  ⟨C6_codes_invariant_amended.1 mapC4 ("fac") rowC4 opRowC4
     (by with_unfolding_all decide),
   C6_codes_invariant_amended.2 (JThing.item itemRc) ("fac") opItemRc
     (by with_unfolding_all decide)⟩

/-! ## Claims C3 and C1: `_select_best_operation` -/

theorem bestFold_mem (x : Op) (xs : List Op) :
    xs.foldl (fun b o => if score b < score o then o else b) x ∈ x :: xs := by
  induction xs generalizing x with
  | nil => simp
  | cons y ys ih =>
    rw [List.foldl_cons]
    rcases List.mem_cons.1 (ih (if score x < score y then y else x)) with
      h | h
    · rw [h]
      split
      · simp
      · simp
    · simp [List.mem_cons.2 (Or.inr (List.mem_cons.2 (Or.inr h)))]

theorem bestFold_le (x : Op) (xs : List Op) :
    ∀ o ∈ x :: xs,
      score o ≤ score
        (xs.foldl (fun b o => if score b < score o then o else b) x) := by
  induction xs generalizing x with
  | nil =>
    intro o ho
    simp at ho
    subst ho
    simp
  | cons y ys ih =>
    intro o ho
    rw [List.foldl_cons]
    have hz := ih (if score x < score y then y else x)
    have hx : score x ≤ score (if score x < score y then y else x) := by
      split
      · rename_i hlt
        exact le_of_lt hlt
      · exact le_refl _
    have hy : score y ≤ score (if score x < score y then y else x) := by
      split
      · exact le_refl _
      · rename_i hlt
        exact not_lt.1 hlt
    rcases List.mem_cons.1 ho with h | h
    · rw [h]
      exact le_trans hx (hz _ (List.mem_cons_self _ _))
    · rcases List.mem_cons.1 h with h' | h'
      · rw [h']
        exact le_trans hy (hz _ (List.mem_cons_self _ _))
      · exact hz o (List.mem_cons.2 (Or.inr h'))

/-- `_select_best_operation` on a nonempty group: the survivor is a copy
of a score-maximal member with merged negotiated bounds. -/
theorem select_best_spec (x : Op) (xs : List Op) :
    ∃ b ∈ x :: xs, (∀ o ∈ x :: xs, score o ≤ score b) ∧
      select_best_operation (x :: xs) = some
        { b with
          negotiated_min :=
            match (x :: xs).filterMap Op.negotiated_min with
            | [] => b.negotiated_min
            | m :: ms => some (ms.foldl min m)
          negotiated_max :=
            match (x :: xs).filterMap Op.negotiated_max with
            | [] => b.negotiated_max
            | m :: ms => some (ms.foldl max m) } :=
  ⟨xs.foldl (fun b o => if score b < score o then o else b) x,
    bestFold_mem x xs, bestFold_le x xs, rfl⟩

/-- C3: on every nonempty dedup group, the survivor's `negotiated_min` is
the minimum of all members' non-null `negotiated_min` values (`None` when
none are present, i.e. unchanged) and its `negotiated_max` is the maximum
of all members' non-null `negotiated_max` values — regardless of which
member won on price. -/
theorem C3_range_widening (ops : List Op) (hne : ops ≠ []) :
    ∃ r, select_best_operation ops = some r ∧
      r.negotiated_min = (ops.filterMap Op.negotiated_min).min? ∧
      r.negotiated_max = (ops.filterMap Op.negotiated_max).max? := by
  match ops with
  | [] => exact absurd rfl hne
  | x :: xs =>
    rcases select_best_spec x xs with ⟨b, hb, _, heq⟩
    refine ⟨_, heq, ?_, ?_⟩
    · cases hmins : (x :: xs).filterMap Op.negotiated_min with
      | nil =>
        have : b.negotiated_min = none :=
          List.filterMap_eq_nil_iff.1 hmins b hb
        simp [this]
      | cons m ms => simp only [hmins, List.min?_cons']
    · cases hmaxs : (x :: xs).filterMap Op.negotiated_max with
      | nil =>
        have : b.negotiated_max = none :=
          List.filterMap_eq_nil_iff.1 hmaxs b hb
        simp [this]
      | cons m ms => simp only [hmaxs, List.max?_cons']

/-- Concrete instantiation of `C3_range_widening` on the spec's example:
the survivor carries `negotiated_min = 100` and `negotiated_max = 300`. -/
theorem C3_range_widening_witness :
    ∃ r, select_best_operation [opRangeA, opRangeB] = some r ∧
      r.negotiated_min = ([opRangeA, opRangeB].filterMap
        Op.negotiated_min).min? ∧
      r.negotiated_max = ([opRangeA, opRangeB].filterMap
        Op.negotiated_max).max? :=
  C3_range_widening [opRangeA, opRangeB] (by simp)

/-- C1 (counterexample): deduplicating a group holding a cash-price-50
candidate and a gross-only candidate with gross charge 10000 keeps the
gross-only record (score 1500 beats 1050): a cash-price candidate does
NOT always outrank a gross-only one — the outcome depends on the
magnitude of the gross charge. -/
theorem C1_counterexample :
    (deduplicate_operations [opCash50, opGross10000]).map Op.cash_price =
      [none] ∧
    opGroupKey opCash50 = opGroupKey opGross10000 ∧
    opCash50.cash_price = some 50 ∧
    opGross10000.cash_price = none ∧
    opGross10000.gross_charge = some 10000 := by
  refine ⟨?_, by decide, rfl, rfl, rfl⟩
  with_unfolding_all decide

/-- C1 (amended): a candidate with a non-null cash price `c ≥ 0` survives
over every gross-only candidate whose gross charge `g` satisfies
`500 + g/10 < 1000 + c` (equivalently `g < 5000 + 10·c`); for larger
gross charges the gross-only candidate outscores every such cash
candidate and survives instead. -/
theorem C1_cash_priority_amended (ops : List Op) (o : Op) (c : ℚ)
    (hmem : o ∈ ops) (hcash : o.cash_price = some c) (hc : 0 ≤ c)
    (hgross : ∀ o2 ∈ ops, o2.cash_price = none →
      ∀ g, o2.gross_charge = some g → 500 + g * (1 / 10) < 1000 + c) :
    ∃ r, select_best_operation ops = some r ∧ r.cash_price ≠ none := by
  match ops with
  | [] => exact absurd hmem (by simp)
  | x :: xs =>
    rcases select_best_spec x xs with ⟨b, hb, hmax, heq⟩
    refine ⟨_, heq, ?_⟩
    simp only []
    intro hbnone
    have hob : score o ≤ score b := hmax o hmem
    have hso : score o = 1000 + c := by
      unfold score
      rw [hcash]
    cases hbg : b.gross_charge with
    | none =>
      have hsb : score b = 0 := by
        unfold score
        rw [hbnone, hbg]
      rw [hso, hsb] at hob
      linarith
    | some g =>
      have hsb : score b = 500 + g * (1 / 10) := by
        unfold score
        rw [hbnone, hbg]
      have hlt := hgross b hb hbnone g hbg
      rw [hso, hsb] at hob
      linarith

/-- Concrete instantiation of `C1_cash_priority_amended` on the spec's
own example (cash 50 against gross-only 1000, where `600 < 1050`): the
survivor holds a cash price. -/
theorem C1_cash_priority_amended_witness :
    ∃ r, select_best_operation [opCash50, opGross1000] = some r ∧
      r.cash_price ≠ none :=
  C1_cash_priority_amended [opCash50, opGross1000] opCash50 50
    (by simp) rfl (by norm_num)
    (by
      intro o2 h2 hnone g hg
      rcases List.mem_cons.1 h2 with h | h
      · rw [h] at hnone
        exact absurd hnone (by decide)
      · simp only [List.mem_singleton] at h
        rw [h] at hg
        cases hg
        norm_num)

/-! ## Claims C5 and C2: the group key and dedup output uniqueness

Python's `sorted` is a stable sort under `<` on `(str, list[str])`
tuples; a sorted permutation is unique once the order is total,
transitive and antisymmetric, so `List.insertionSort pairLe` agrees with
it.  The instances below establish those three properties for the
embedded tuple order. -/

theorem listLeB_total : ∀ a b : List String,
    listLeB a b = true ∨ listLeB b a = true := by
  intro a
  induction a with
  | nil =>
    intro b
    left
    cases b <;> rfl
  | cons x xs ih =>
    intro b
    cases b with
    | nil =>
      right
      rfl
    | cons y ys =>
      unfold listLeB
      rcases lt_trichotomy x y with h | h | h
      · exact Or.inl (by simp [h])
      · subst h
        simp only [lt_irrefl, if_false]
        exact ih ys
      · exact Or.inr (by simp [h])

theorem listLeB_trans : ∀ a b c : List String, listLeB a b = true →
    listLeB b c = true → listLeB a c = true := by
  intro a
  induction a with
  | nil =>
    intro b c _ _
    cases c <;> rfl
  | cons x xs ih =>
    intro b c hab hbc
    cases b with
    | nil => simp [listLeB] at hab
    | cons y ys =>
      cases c with
      | nil => simp [listLeB] at hbc
      | cons z zs =>
        unfold listLeB at hab hbc ⊢
        by_cases hxy : x < y
        · by_cases hyz : y < z
          · simp [lt_trans hxy hyz]
          · by_cases hzy : z < y
            · rw [if_neg hyz, if_pos hzy] at hbc
              exact absurd hbc (by simp)
            · have heq : y = z := le_antisymm (not_lt.1 hzy) (not_lt.1 hyz)
              subst heq
              simp [hxy]
        · by_cases hyx : y < x
          · rw [if_neg hxy, if_pos hyx] at hab
            exact absurd hab (by simp)
          · have heq : x = y := le_antisymm (not_lt.1 hyx) (not_lt.1 hxy)
            subst heq
            rw [if_neg hxy, if_neg hyx] at hab
            by_cases hxz : x < z
            · simp [hxz]
            · by_cases hzx : z < x
              · rw [if_neg hxz, if_pos hzx] at hbc
                exact absurd hbc (by simp)
              · have heq2 : x = z :=
                  le_antisymm (not_lt.1 hzx) (not_lt.1 hxz)
                subst heq2
                rw [if_neg hxz, if_neg hzx] at hbc ⊢
                exact ih ys zs hab hbc

theorem listLeB_antisymm : ∀ a b : List String, listLeB a b = true →
    listLeB b a = true → a = b := by
  intro a
  induction a with
  | nil =>
    intro b _ hba
    cases b with
    | nil => rfl
    | cons y ys => simp [listLeB] at hba
  | cons x xs ih =>
    intro b hab hba
    cases b with
    | nil => simp [listLeB] at hab
    | cons y ys =>
      unfold listLeB at hab hba
      by_cases hxy : x < y
      · rw [if_neg (asymm hxy), if_pos hxy] at hba
        exact absurd hba (by simp)
      · by_cases hyx : y < x
        · rw [if_neg hxy, if_pos hyx] at hab
          exact absurd hab (by simp)
        · have heq : x = y := le_antisymm (not_lt.1 hyx) (not_lt.1 hxy)
          subst heq
          rw [if_neg hxy, if_neg hyx] at hab hba
          rw [ih ys hab hba]

instance : IsTotal (String × List String) pairLe :=
  ⟨by
    intro a b
    unfold pairLe pairLeB
    rcases lt_trichotomy a.1 b.1 with h | h | h
    · exact Or.inl (by simp [h])
    · rw [h]
      simp only [lt_irrefl, if_false]
      exact listLeB_total a.2 b.2
    · exact Or.inr (by simp [h])⟩

instance : IsTrans (String × List String) pairLe :=
  ⟨by
    intro a b c hab hbc
    unfold pairLe pairLeB at hab hbc ⊢
    by_cases hxy : a.1 < b.1
    · by_cases hyz : b.1 < c.1
      · simp [lt_trans hxy hyz]
      · by_cases hzy : c.1 < b.1
        · rw [if_neg hyz, if_pos hzy] at hbc
          exact absurd hbc (by simp)
        · have heq : b.1 = c.1 :=
            le_antisymm (not_lt.1 hzy) (not_lt.1 hyz)
          rw [← heq]
          simp [hxy]
    · by_cases hyx : b.1 < a.1
      · rw [if_neg hxy, if_pos hyx] at hab
        exact absurd hab (by simp)
      · have heq : a.1 = b.1 := le_antisymm (not_lt.1 hyx) (not_lt.1 hxy)
        rw [if_neg hxy, if_neg hyx] at hab
        by_cases hxz : a.1 < c.1
        · simp [hxz]
        · by_cases hzx : c.1 < a.1
          · rw [heq] at hzx hxz
            rw [if_neg hxz, if_pos hzx] at hbc
            exact absurd hbc (by simp)
          · rw [if_neg hxz, if_neg hzx]
            rw [heq] at hzx hxz
            rw [if_neg hxz, if_neg hzx] at hbc
            exact listLeB_trans a.2 b.2 c.2 hab hbc⟩

instance : IsAntisymm (String × List String) pairLe :=
  ⟨by
    intro a b hab hba
    unfold pairLe pairLeB at hab hba
    by_cases hxy : a.1 < b.1
    · rw [if_neg (asymm hxy), if_pos hxy] at hba
      exact absurd hba (by simp)
    · by_cases hyx : b.1 < a.1
      · rw [if_neg hxy, if_pos hyx] at hab
        exact absurd hab (by simp)
      · have heq : a.1 = b.1 := le_antisymm (not_lt.1 hyx) (not_lt.1 hxy)
        rw [if_neg hxy, if_neg hyx] at hab hba
        have heq2 := listLeB_antisymm a.2 b.2 hab hba
        exact Prod.ext heq heq2⟩

/-- `sorted` yields the same result on permuted inputs: the group key is
insensitive to the iteration order of the codes mapping's entries. -/
theorem sortItems_perm {l₁ l₂ : List (String × List String)}
    (h : l₁.Perm l₂) : sortItems l₁ = sortItems l₂ :=
  List.eq_of_perm_of_sorted
    ((List.perm_insertionSort pairLe l₁).trans
      (h.trans (List.perm_insertionSort pairLe l₂).symm))
    (List.sorted_insertionSort pairLe l₁)
    (List.sorted_insertionSort pairLe l₂)

theorem opGroupKey_ext (a b : Op) (hd : a.description = b.description)
    (hc : a.codes = b.codes) : opGroupKey a = opGroupKey b := by
  unfold opGroupKey
  rw [hd, hc]

theorem opGroupKey_perm (a b : Op) (hd : a.description = b.description)
    (hc : a.codes.Perm b.codes) : opGroupKey a = opGroupKey b := by
  unfold opGroupKey
  rw [hd, sortItems_perm hc]

/-- Keys of `groupInsert`: unchanged when the key already exists,
appended otherwise. -/
theorem groupInsert_fst (gs : List (String × List Op)) (k : String)
    (op : Op) :
    (groupInsert gs k op).map Prod.fst =
      if k ∈ gs.map Prod.fst then gs.map Prod.fst
      else gs.map Prod.fst ++ [k] := by
  induction gs with
  | nil => simp [groupInsert]
  | cons q rest ih =>
    obtain ⟨k', ops'⟩ := q
    unfold groupInsert
    by_cases hq : k' = k
    · subst hq
      simp
    · rw [if_neg hq]
      simp only [List.map_cons, ih, List.mem_cons]
      by_cases hk : k ∈ rest.map Prod.fst
      · rw [if_pos hk, if_pos (Or.inr hk)]
      · rw [if_neg hk, if_neg ?_]
        · simp
        · rintro (h | h)
          · exact hq h.symm
          · exact hk h

theorem groupInsert_nodup (gs : List (String × List Op)) (k : String)
    (op : Op) (hnd : (gs.map Prod.fst).Nodup) :
    ((groupInsert gs k op).map Prod.fst).Nodup := by
  rw [groupInsert_fst]
  split
  · exact hnd
  · rename_i hk
    refine List.Nodup.append hnd (by simp) ?_
    intro a ha hb
    simp at hb
    rw [hb] at ha
    exact hk ha

theorem groupInsert_keyinv (gs : List (String × List Op)) (k : String)
    (op : Op)
    (hinv : ∀ p ∈ gs, ∀ o ∈ p.2, opGroupKey o = p.1)
    (hk : opGroupKey op = k) :
    ∀ p ∈ groupInsert gs k op, ∀ o ∈ p.2, opGroupKey o = p.1 := by
  induction gs with
  | nil =>
    intro p hp o ho
    simp [groupInsert] at hp
    rw [hp] at ho ⊢
    simp at ho
    rw [ho, hk]
  | cons q rest ih =>
    intro p hp o ho
    unfold groupInsert at hp
    by_cases hq : q.1 = k
    · rw [if_pos hq] at hp
      rcases List.mem_cons.1 hp with h | h
      · rw [h] at ho ⊢
        rcases List.mem_append.1 ho with h' | h'
        · exact hinv q (List.mem_cons_self q rest) o h'
        · simp at h'
          rw [h', hk, hq]
      · exact hinv p (List.mem_cons.2 (Or.inr h)) o ho
    · rw [if_neg hq] at hp
      rcases List.mem_cons.1 hp with h | h
      · rw [h] at ho
        exact h ▸ hinv q (List.mem_cons_self q rest) o ho
      · exact ih (fun p' hp' => hinv p' (List.mem_cons.2 (Or.inr hp'))) p
          h o ho

theorem buildGroups_wf (ops : List Op) : GroupsWF (buildGroups ops) := by
  unfold buildGroups
  generalize hacc : ([] : List (String × List Op)) = acc
  have h0 : GroupsWF acc := by
    rw [← hacc]
    exact ⟨by simp, by simp⟩
  clear hacc
  induction ops generalizing acc with
  | nil => exact h0
  | cons op rest ih =>
    rw [List.foldl_cons]
    exact ih _ ⟨groupInsert_nodup acc _ op h0.1,
      groupInsert_keyinv acc _ op h0.2 rfl⟩

theorem select_best_desc_codes (ops : List Op) (r : Op)
    (h : select_best_operation ops = some r) :
    ∃ b ∈ ops, r.description = b.description ∧ r.codes = b.codes := by
  cases ops with
  | nil => simp [select_best_operation] at h
  | cons x xs =>
    unfold select_best_operation at h
    dsimp only [] at h
    cases h
    exact ⟨_, bestFold_mem x xs, rfl, rfl⟩

theorem collapse_mem_key (gs : List (String × List Op))
    (hinv : ∀ p ∈ gs, ∀ o ∈ p.2, opGroupKey o = p.1) :
    ∀ o ∈ collapseGroups gs, ∃ p ∈ gs, opGroupKey o = p.1 := by
  induction gs with
  | nil => simp [collapseGroups]
  | cons q rest ih =>
    intro o ho
    unfold collapseGroups at ho
    rcases List.mem_append.1 ho with h | h
    · refine ⟨q, List.mem_cons_self q rest, ?_⟩
      revert h
      split
      · simp
      · rename_i o' heq
        intro h
        simp at h
        rw [h]
        exact hinv q (List.mem_cons_self q rest) o' (heq ▸ by simp)
      · intro h
        rcases ho' : select_best_operation q.2 with _ | r
        · rw [ho'] at h
          simp at h
        · rw [ho'] at h
          simp at h
          rcases select_best_desc_codes q.2 r ho' with ⟨b, hb, hd, hc⟩
          rw [h]
          rw [opGroupKey_ext r b hd hc]
          exact hinv q (List.mem_cons_self q rest) b hb
    · rcases ih (fun p hp => hinv p (List.mem_cons.2 (Or.inr hp))) o h
        with ⟨p, hp, he⟩
      exact ⟨p, List.mem_cons.2 (Or.inr hp), he⟩

theorem collapse_pairwise (gs : List (String × List Op))
    (hnd : (gs.map Prod.fst).Nodup)
    (hinv : ∀ p ∈ gs, ∀ o ∈ p.2, opGroupKey o = p.1) :
    (collapseGroups gs).Pairwise
      (fun a b => opGroupKey a ≠ opGroupKey b) := by
  induction gs with
  | nil => simp [collapseGroups]
  | cons q rest ih =>
    unfold collapseGroups
    rw [List.pairwise_append]
    have hhead : ∀ o ∈ (match q.2 with
        | [] => ([] : List Op)
        | [o] => [o]
        | _ => (select_best_operation q.2).toList), opGroupKey o = q.1 := by
      intro o ho
      have := collapse_mem_key [q] (by
        intro p hp
        simp at hp
        rw [hp]
        exact hinv q (List.mem_cons_self q rest)) o (by
          unfold collapseGroups collapseGroups
          simpa using ho)
      rcases this with ⟨p, hp, he⟩
      simp at hp
      rw [hp] at he
      exact he
    refine ⟨?_, ih (by simp at hnd ⊢; exact hnd.2)
        (fun p hp => hinv p (List.mem_cons.2 (Or.inr hp))), ?_⟩
    · split
      · simp
      · simp
      · rcases select_best_operation q.2 with _ | r <;> simp
    · intro a ha b hb
      have hka : opGroupKey a = q.1 := hhead a ha
      rcases collapse_mem_key rest
          (fun p hp => hinv p (List.mem_cons.2 (Or.inr hp))) b hb with
        ⟨p, hp, hkb⟩
      rw [hka, hkb]
      intro hcontra
      simp only [List.map_cons, List.nodup_cons] at hnd
      exact hnd.1 (hcontra ▸ List.mem_map_of_mem Prod.fst hp)

/-- The output of `_deduplicate_operations` never holds two records with
the same group key. -/
theorem dedup_pairwise (ops : List Op) :
    (deduplicate_operations ops).Pairwise
      (fun a b => opGroupKey a ≠ opGroupKey b) := by
  unfold deduplicate_operations
  have hwf := buildGroups_wf ops
  exact collapse_pairwise _ hwf.1 hwf.2

theorem pairwise_countP_le_one (l : List Op)
    (hpw : l.Pairwise (fun a b => opGroupKey a ≠ opGroupKey b))
    (k : String) : l.countP (fun o => opGroupKey o = k) ≤ 1 := by
  induction l with
  | nil => simp
  | cons x rest ih =>
    rw [List.pairwise_cons] at hpw
    rw [List.countP_cons]
    by_cases hx : opGroupKey x = k
    · have hz : rest.countP (fun o => decide (opGroupKey o = k)) = 0 := by
        rw [List.countP_eq_zero]
        intro o ho
        simp only [decide_eq_true_eq]
        intro he
        exact hpw.1 o ho (by rw [hx, he])
      simp [hx, hz]
    · simp only [hx, decide_eq_true_eq, if_neg hx, Nat.add_zero]
      exact ih hpw.2

/-- C5 (counterexample): two records with equal description and codes
mappings that differ only in the ordering of the code list inside one
code type receive different group keys — `sorted` orders the
`(type, list)` pairs but never the lists inside them — and both records
survive deduplication. -/
theorem C5_counterexample :
    opGroupKey opCodesAB ≠ opGroupKey opCodesBA ∧
    (deduplicate_operations [opCodesAB, opCodesBA]).length = 2 := by
  constructor
  · decide
  · with_unfolding_all decide

/-- C5 (amended): the group key is order-independent over the *entries*
of the codes mapping — two records with equal description whose codes
mappings are permutations of each other as `(type, code list)` pair lists
fall into the same group (equal keys) and at most one record with that
key survives deduplication — but it is NOT order-independent over the
code list within a code type. -/
theorem C5_key_order_amended (ops : List Op) (r1 r2 : Op)
    (h1 : r1 ∈ ops) (h2 : r2 ∈ ops)
    (hd : r1.description = r2.description)
    (hp : r1.codes.Perm r2.codes) :
    opGroupKey r1 = opGroupKey r2 ∧
    (deduplicate_operations ops).countP
      (fun o => opGroupKey o = opGroupKey r1) ≤ 1 :=
  ⟨opGroupKey_perm r1 r2 hd hp,
   pairwise_countP_le_one _ (dedup_pairwise ops) _⟩

/-- Concrete instantiation of `C5_key_order_amended`: two records whose
codes mappings list the same `(type, codes)` entries in different orders
share one group key and at most one survivor. -/
theorem C5_key_order_amended_witness :
    opGroupKey opTwoTypes = opGroupKey opTwoTypesSwapped ∧
    (deduplicate_operations [opTwoTypes, opTwoTypesSwapped]).countP
      (fun o => opGroupKey o = opGroupKey opTwoTypes) ≤ 1 :=
  C5_key_order_amended [opTwoTypes, opTwoTypesSwapped] opTwoTypes
    opTwoTypesSwapped (by simp) (by simp) rfl
    (by
      unfold opTwoTypes opTwoTypesSwapped
      simp only []
      exact List.Perm.swap _ _ [])

/-! ## Claims C2 and C10: per-file orchestration -/

theorem extract_foldl (mapping : ColumnMapping) (fid : String) :
    ∀ (rows : List (List (String × String))) (st : List Op × Nat),
    rows.foldl (fun (st : List Op × Nat) row =>
      match parseCsvRow mapping fid row with
      | some op => (st.1 ++ [op], st.2)
      | none => (st.1, st.2 + 1)) st =
    (st.1 ++ rows.filterMap (parseCsvRow mapping fid),
     st.2 + rows.countP (fun r => (parseCsvRow mapping fid r).isNone)) := by
  intro rows
  induction rows with
  | nil => simp
  | cons r rest ih =>
    intro st
    rw [List.foldl_cons]
    cases h : parseCsvRow mapping fid r with
    | some op =>
      rw [ih]
      simp [List.filterMap_cons, List.countP_cons, h]
    | none =>
      rw [ih]
      simp only [List.filterMap_cons, List.countP_cons, h]
      simp
      omega

theorem batchLoop_inv (bs : Nat) :
    ∀ (ops : List Op) (st : List (List Op) × List Op × Nat),
    (ops.foldl (batchLoop bs) st).1.flatten ++
        (ops.foldl (batchLoop bs) st).2.1 =
      st.1.flatten ++ st.2.1 ++ ops ∧
    (ops.foldl (batchLoop bs) st).2.2 = st.2.2 + ops.length := by
  intro ops
  induction ops with
  | nil => simp
  | cons op rest ih =>
    intro st
    rw [List.foldl_cons]
    have hstep := ih (batchLoop bs st op)
    unfold batchLoop at hstep ⊢
    dsimp only [] at hstep ⊢
    by_cases hcond : bs ≤ (st.2.1 ++ [op]).length
    · simp only [if_pos hcond] at hstep ⊢
      rw [hstep.1, hstep.2]
      constructor
      · simp
      · simp
        omega
    · simp only [if_neg hcond] at hstep ⊢
      rw [hstep.1, hstep.2]
      constructor
      · simp
      · simp
        omega

theorem flushFinal_flatten (st : List (List Op) × List Op × Nat) :
    (flushFinal st).flatten = st.1.flatten ++ st.2.1 := by
  unfold flushFinal
  split
  · rename_i he
    simp [he]
  · simp

/-- The records a CSV-file run hands to the batch writer, across all its
batches, are exactly the deduplicated extraction output. -/
theorem process_csv_written (mapping : ColumnMapping) (fid : String)
    (bs : Nat) (fileRows : List (List String)) (skip : Nat) :
    (process_csv_file mapping fid bs fileRows skip).2.flatten =
      deduplicate_operations
        ((stream_csv_rows fileRows skip).filterMap
          (parseCsvRow mapping fid)) := by
  unfold process_csv_file
  dsimp only []
  rw [flushFinal_flatten, extract_foldl]
  have h := batchLoop_inv bs
    (deduplicate_operations
      (([] : List Op) ++
        (stream_csv_rows fileRows skip).filterMap (parseCsvRow mapping fid)))
    ([], [], 0)
  simp only [List.nil_append] at h ⊢
  rw [h.1]
  simp

theorem C2_counterexample :
    ¬ (writtenJsonDup.Pairwise
        (fun a b => opGroupKey a ≠ opGroupKey b)) := by
  with_unfolding_all decide

/-- C2 (amended): on the CSV path, the full extracted record set is
deduplicated before any batch write — the concatenation of the written
batches is exactly the deduplicated list and never holds two records
with the same (description, codes) group key.  The JSON path has no
deduplication pass (see the counterexample). -/
theorem C2_dedup_before_write_amended (mapping : ColumnMapping)
    (fid : String) (bs : Nat) (fileRows : List (List String))
    (skip : Nat) :
    (process_csv_file mapping fid bs fileRows skip).2.flatten =
      deduplicate_operations
        ((stream_csv_rows fileRows skip).filterMap
          (parseCsvRow mapping fid)) ∧
    ((process_csv_file mapping fid bs fileRows skip).2.flatten).Pairwise
      (fun a b => opGroupKey a ≠ opGroupKey b) := by
  have hw := process_csv_written mapping fid bs fileRows skip
  exact ⟨hw, hw ▸ dedup_pairwise _⟩

/-- C10: for a processed CSV file, `successful_records` is the
post-deduplication record count (not the extracted-row count),
`total_records` is that count plus `failed_records`, and
`failed_records` counts the streamed rows the extractor rejected — rows
merged away by deduplication are counted in neither. -/
theorem C10_statistics (mapping : ColumnMapping) (fid : String)
    (bs : Nat) (fileRows : List (List String)) (skip : Nat) :
    (process_csv_file mapping fid bs fileRows skip).1.successful_records =
      (deduplicate_operations
        ((stream_csv_rows fileRows skip).filterMap
          (parseCsvRow mapping fid))).length ∧
    (process_csv_file mapping fid bs fileRows skip).1.total_records =
      (process_csv_file mapping fid bs fileRows skip).1.successful_records +
      (process_csv_file mapping fid bs fileRows skip).1.failed_records ∧
    (process_csv_file mapping fid bs fileRows skip).1.failed_records =
      (stream_csv_rows fileRows skip).countP
        (fun r => (parseCsvRow mapping fid r).isNone) := by
  unfold process_csv_file
  dsimp only []
  rw [extract_foldl]
  refine ⟨?_, rfl, by simp⟩
  have h := batchLoop_inv bs
    (deduplicate_operations
      (([] : List Op) ++
        (stream_csv_rows fileRows skip).filterMap (parseCsvRow mapping fid)))
    ([], [], 0)
  simp only [List.nil_append] at h ⊢
  rw [h.2]
  simp

/-! ## Claim C9: `stream_csv_rows` row/header alignment -/

theorem padTo_of_le (n : Nat) (row : List String) (h : n ≤ row.length) :
    padTo n row = row := by
  unfold padTo
  have hz : n - row.length = 0 := by omega
  simp [hz]

theorem padTo_length (n : Nat) (row : List String) :
    n ≤ (padTo n row).length := by
  unfold padTo
  simp
  omega

theorem zip_append_right : ∀ (h r e : List String),
    h.length ≤ r.length → List.zip h (r ++ e) = List.zip h r := by
  intro h
  induction h with
  | nil => simp
  | cons x xs ih =>
    intro r e hlen
    cases r with
    | nil => simp at hlen
    | cons y ys =>
      simp only [List.cons_append, List.zip_cons_cons]
      rw [ih ys e (by simpa using hlen)]

theorem dictSet_keys : ∀ (d : List (String × String)) (k v k' : String),
    k' ∈ (dictSet d k v).map Prod.fst ↔
      k' ∈ d.map Prod.fst ∨ k' = k := by
  intro d
  induction d with
  | nil =>
    intro k v k'
    simp [dictSet, eq_comm]
  | cons q rest ih =>
    intro k v k'
    obtain ⟨k0, v0⟩ := q
    unfold dictSet
    by_cases hq : k0 = k
    · subst hq
      rw [if_pos rfl]
      simp only [List.map_cons, List.mem_cons]
      tauto
    · rw [if_neg hq]
      simp only [List.map_cons, List.mem_cons, ih]
      tauto

theorem pyDict_keys_aux : ∀ (l acc : List (String × String)) (k : String),
    k ∈ ((l.foldl (fun d p => dictSet d p.1 p.2) acc).map Prod.fst) ↔
      k ∈ acc.map Prod.fst ∨ k ∈ l.map Prod.fst := by
  intro l
  induction l with
  | nil => simp
  | cons p rest ih =>
    intro acc k
    rw [List.foldl_cons, ih, dictSet_keys]
    simp only [List.map_cons, List.mem_cons]
    tauto

theorem pyDict_keys (l : List (String × String)) (k : String) :
    k ∈ (pyDict l).map Prod.fst ↔ k ∈ l.map Prod.fst := by
  unfold pyDict
  rw [pyDict_keys_aux]
  simp

theorem map_snd_zip_take : ∀ (l₁ l₂ : List String),
    (List.zip l₁ l₂).map Prod.snd = l₂.take l₁.length := by
  intro l₁
  induction l₁ with
  | nil => simp
  | cons x xs ih =>
    intro l₂
    cases l₂ with
    | nil => simp
    | cons y ys => simp [ih]

theorem padTo_take (n : Nat) (row : List String) :
    (padTo n row).take n = row.take n ++
      List.replicate (n - row.length) "" := by
  unfold padTo
  rcases le_or_lt n row.length with h | h
  · have hz : n - row.length = 0 := by omega
    simp [hz]
  · rw [List.take_append_eq_append_take]
    rw [List.take_of_length_le (by omega),
      List.take_of_length_le (by simp)]

/-- C9: each streamed CSV row is `dict(zip(header, row))` after padding
the raw row to the header's length.  Cells beyond the header never
influence the yielded mapping (`zip` truncates), the mapping's keys are
exactly the header names, and short rows are padded with empty strings
(cell values are the row truncated to the header length then padded). -/
theorem C9_row_alignment (fileRows : List (List String)) (skip : Nat)
    (header : List String) (dataRows : List (List String))
    (hdrop : fileRows.drop skip = header :: dataRows) :
    (stream_csv_rows fileRows skip = dataRows.map (fun row =>
      pyDict (List.zip (header.map pyStrip)
        (padTo (header.map pyStrip).length row)))) ∧
    (∀ (h row extra : List String), h.length ≤ row.length →
      pyDict (List.zip h (padTo h.length (row ++ extra))) =
        pyDict (List.zip h (padTo h.length row))) ∧
    (∀ (h row : List String) (k : String),
      k ∈ (pyDict (List.zip h (padTo h.length row))).map Prod.fst ↔
        k ∈ h) ∧
    (∀ (h row : List String),
      (List.zip h (padTo h.length row)).map Prod.snd =
        row.take h.length ++ List.replicate (h.length - row.length) "") := by
  refine ⟨?_, ?_, ?_, ?_⟩
  · unfold stream_csv_rows
    rw [hdrop]
  · intro h row extra hlen
    rw [padTo_of_le _ _ (by rw [List.length_append]; omega),
      padTo_of_le _ _ hlen, zip_append_right h row extra hlen]
  · intro h row k
    rw [pyDict_keys, List.map_fst_zip h _ (padTo_length h.length row)]
  · intro h row
    rw [map_snd_zip_take, padTo_take]

/-- Concrete instantiation of `C9_row_alignment`: a two-column header
(with whitespace to strip), one long row and one short row. -/
theorem C9_row_alignment_witness :
    stream_csv_rows
        [[(" h1 "), ("h2")], [("a"), ("b"), ("c")], [("x")]] 0 =
      [[("a"), ("b"), ("c")], [("x")]].map (fun row =>
        pyDict (List.zip ([(" h1 "), ("h2")].map pyStrip)
          (padTo ([(" h1 "), ("h2")].map pyStrip).length row))) :=
  (C9_row_alignment [[(" h1 "), ("h2")], [("a"), ("b"), ("c")], [("x")]]
    0 [(" h1 "), ("h2")] [[("a"), ("b"), ("c")], [("x")]] rfl).1

/-! ## Claim C8: JSON-subtype detection -/

/-- C8 (counterexample): a `.json` file whose first line is blank and
whose next two lines are valid JSON values (`1` and `2`).  The claimed
rule (first two NON-EMPTY lines) classifies it NDJSON; the code reads the
first two lines verbatim, sees the blank first line, skips the NDJSON
test and falls through to the JSON default. -/
theorem C8_counterexample :
    detect_file_format (".json") parsesC8 "" [(""), ("1"), ("2")] =
      FileFormat.json ∧
    spec_detect_json_type parsesC8 [(""), ("1"), ("2")] =
      FileFormat.ndjson :=
  ⟨by decide, by decide⟩

/-- C8 (amended): for every file with a `.json` extension, format
detection behaves exactly as `amended_detect_json_type` describes. -/
theorem C8_detection_amended (parses : String → Bool) (content : String)
    (fileLines : List String) :
    detect_file_format (".json") parses content fileLines =
      amended_detect_json_type parses fileLines := by
  unfold detect_file_format
  rw [if_neg (by decide), if_neg (by decide), if_pos rfl]
  rfl
